import Mathlib

/-!
Verification of the client-side command receiver / replay engine
(`src/client/src/command_receiver.rs`) of the naia repository.

Ticks are 16-bit counters; we embed them as `Nat` values, reducing
modulo 2^16 = 65536 where the machine arithmetic wraps.  Commands are
an opaque type parameter `C` (the code stores `Rc<Box<dyn State<T>>>`
handles and never inspects them).  The two `HashMap` fields are
embedded as association lists with unique keys; the list order models
the (unspecified) hash-map iteration order that `process_command_replay`
follows.  The collaborating `ClientStateManager` is embedded as a log of
the reset calls issued to it.
-/

namespace Naia

/-- Modelled from the spec: `naia_shared::wrapping_diff` (§4.A), whose
source is not under `src/`.  The signed minimal difference from `b` to
`a` on the mod-2^16 circle: the value in `[-32768, 32767]` congruent to
`a - b` modulo 2^16. -/
def wrapping_diff (a b : Nat) : Int :=
  let d := (a % 65536 + 65536 - b % 65536) % 65536
  if d < 32768 then (d : Int) else (d : Int) - 65536

/-- Modelled from the spec: `naia_shared::PawnKey` (§4.C), whose source
is not under `src/`.  A tagged identity: either a state-pawn or an
entity-pawn; the two cases are disjoint even when inner ids collide. -/
inductive PawnKey where
  | State (id : Nat)
  | Entity (id : Nat)
deriving DecidableEq, Repr

/-- Modelled from the spec: `naia_shared::SequenceBuffer` (§4.B), whose
source is not under `src/`.  A fixed ring of `capacity` slots, each
holding an optional `(tick, value)` pair, indexed by `tick % capacity`,
plus `sequence_num`, the newest tick ever inserted. -/
structure SequenceBuffer (V : Type) where
  capacity : Nat
  slots : List (Option (Nat × V))
  sequence_num : Nat
deriving Repr

namespace SequenceBuffer

/-- Modelled from the spec: `SequenceBuffer::with_capacity` — all slots
empty, `sequence_num = 0`. -/
def with_capacity (V : Type) (c : Nat) : SequenceBuffer V :=
  ⟨c, List.replicate c none, 0⟩

/-- Modelled from the spec: `SequenceBuffer::insert` (§4.B).  A newer
tick advances `sequence_num`, clears every slot whose stored tick is
older than `tick - capacity + 1` (u16 wrapping subtraction), and writes
at `tick % capacity`; a tick within the window overwrites its slot; an
older tick is silently dropped. -/
def insert {V : Type} (b : SequenceBuffer V) (tick : Nat) (v : V) :
    SequenceBuffer V :=
  if wrapping_diff tick b.sequence_num > 0 then
    let cutoff := (tick + 65536 - (b.capacity - 1)) % 65536
    let cleared := b.slots.map (fun s =>
      match s with
      | some (t, _) => if wrapping_diff cutoff t > 0 then none else s
      | none => none)
    ⟨b.capacity, cleared.set (tick % b.capacity) (some (tick, v)), tick⟩
  else if wrapping_diff b.sequence_num tick < (b.capacity : Int) then
    ⟨b.capacity, b.slots.set (tick % b.capacity) (some (tick, v)),
      b.sequence_num⟩
  else
    b

/-- Modelled from the spec: `SequenceBuffer::get` — the value at slot
`tick % capacity`, only if its stored tick equals the query. -/
def get {V : Type} (b : SequenceBuffer V) (tick : Nat) : Option V :=
  match b.slots.getD (tick % b.capacity) none with
  | some (t, v) => if t = tick then some v else none
  | none => none

/-- Modelled from the spec: `SequenceBuffer::remove_until` — clear every
slot whose stored tick is strictly older than `t` under wrapping
comparison. -/
def remove_until {V : Type} (b : SequenceBuffer V) (t : Nat) :
    SequenceBuffer V :=
  ⟨b.capacity,
    b.slots.map (fun s =>
      match s with
      | some (st, _) => if wrapping_diff t st > 0 then none else s
      | none => none),
    b.sequence_num⟩

/-- Modelled from the spec: `SequenceBuffer::get_entries_count` — the
number of non-empty slots. -/
def get_entries_count {V : Type} (b : SequenceBuffer V) : Nat :=
  b.slots.countP (fun s => s.isSome)

end SequenceBuffer

/-! Association-list operations embedding the `HashMap` fields: lookup,
in-place update of an existing key (Rust `get_mut`), insert-or-replace
(Rust `insert`) and removal (Rust `remove`).  The list order stands for
the map's iteration order; `insert` of a fresh key appends. -/

def alookup {K V : Type} [DecidableEq K] : List (K × V) → K → Option V
  | [], _ => none
  | (k', v) :: t, k => if k' = k then some v else alookup t k

def aupdate {K V : Type} [DecidableEq K] : List (K × V) → K → V → List (K × V)
  | [], _, _ => []
  | (k', v') :: t, k, v =>
    if k' = k then (k', v) :: t else (k', v') :: aupdate t k v

def ainsert {K V : Type} [DecidableEq K] (l : List (K × V)) (k : K) (v : V) :
    List (K × V) :=
  if (alookup l k).isSome then aupdate l k v else l ++ [(k, v)]

def aremove {K V : Type} [DecidableEq K] (l : List (K × V)) (k : K) :
    List (K × V) :=
  l.filter (fun e => e.1 ≠ k)

/-- One reset call issued to the collaborating `ClientStateManager`
during `process_command_replay`: `pawn_reset` for a state-pawn,
`pawn_reset_entity` for an entity-pawn (spec §4.E). -/
inductive ResetCall where
  | pawn_reset (id : Nat)
  | pawn_reset_entity (id : Nat)
deriving DecidableEq, Repr

/-- The reset call `process_command_replay` issues for a pawn key
(`command_receiver.rs` lines 51-54). -/
def resetOf : PawnKey → ResetCall
  | PawnKey.State i => ResetCall.pawn_reset i
  | PawnKey.Entity i => ResetCall.pawn_reset_entity i

/-- The state of `CommandReceiver<T>` (`command_receiver.rs` lines
13-19): the incoming FIFO, the per-pawn history map, the replay FIFO
and the pending replay triggers. -/
structure CommandReceiver (C : Type) where
  queued_incoming_commands : List (Nat × PawnKey × C)
  command_history : List (PawnKey × SequenceBuffer C)
  queued_command_replays : List (Nat × PawnKey × C)
  replay_trigger : List (PawnKey × Nat)

namespace CommandReceiver

/-- `CommandReceiver::new` (lines 23-30): all four fields empty. -/
def new (C : Type) : CommandReceiver C := ⟨[], [], [], []⟩

/-- `pop_command` (lines 33-35): pop the front of the incoming FIFO,
returning the popped element (if any) and the remaining state. -/
def pop_command {C : Type} (s : CommandReceiver C) :
    Option (Nat × PawnKey × C) × CommandReceiver C :=
  (s.queued_incoming_commands.head?,
    { s with queued_incoming_commands := s.queued_incoming_commands.tail })

/-- `pop_command_replay` (lines 38-42): pop the front of the replay
FIFO. -/
def pop_command_replay {C : Type} (s : CommandReceiver C) :
    Option (Nat × PawnKey × C) × CommandReceiver C :=
  (s.queued_command_replays.head?,
    { s with queued_command_replays := s.queued_command_replays.tail })

/-- The commands the loop at lines 62-67 pushes for one pawn: iterate
the raw `u16` range `history_tick ..= sequence_num` (empty when
`history_tick > sequence_num` numerically, exactly as Rust's `..=`) and
keep the ticks present in the buffer, in ascending order. -/
def replay_entries {C : Type} (buf : SequenceBuffer C) (history_tick : Nat)
    (p : PawnKey) : List (Nat × PawnKey × C) :=
  (List.range' history_tick (buf.sequence_num + 1 - history_tick)).filterMap
    (fun t => (buf.get t).map (fun c => (t, p, c)))

/-- The body of the `for` loop of `process_command_replay` (lines
49-68) for one `(pawn_key, history_tick)` trigger entry: if the pawn
has a history buffer, clear both FIFOs and push its present historical
commands onto the replay FIFO; otherwise only the reset call (recorded
by the caller) happens. -/
def processStep {C : Type} (s : CommandReceiver C) (e : PawnKey × Nat) :
    CommandReceiver C :=
  match alookup s.command_history e.1 with
  | some buf =>
    { s with
      queued_incoming_commands := [],
      queued_command_replays := replay_entries buf e.2 e.1 }
  | none => s

/-- `process_command_replay` (lines 45-72): for each pending trigger,
reset the pawn on the state manager and replay its history; finally
clear `replay_trigger`.  Returns the new receiver state and the list of
reset calls issued, in trigger-iteration order. -/
def process_command_replay {C : Type} (s : CommandReceiver C) :
    CommandReceiver C × List ResetCall :=
  let s' := s.replay_trigger.foldl processStep s
  ({ s' with replay_trigger := [] },
    s.replay_trigger.map (fun e => resetOf e.1))

/-- `queue_command` (lines 75-87): append to the incoming FIFO; insert
into the pawn's history buffer when one exists. -/
def queue_command {C : Type} (s : CommandReceiver C) (host_tick : Nat)
    (pawn_key : PawnKey) (command : C) : CommandReceiver C :=
  { s with
    queued_incoming_commands :=
      s.queued_incoming_commands ++ [(host_tick, pawn_key, command)],
    command_history :=
      match alookup s.command_history pawn_key with
      | some buf =>
        aupdate s.command_history pawn_key (buf.insert host_tick command)
      | none => s.command_history }

/-- `command_history_count` (lines 90-95): entry count of the pawn's
buffer, or 0 when untracked. -/
def command_history_count {C : Type} (s : CommandReceiver C)
    (pawn_key : PawnKey) : Nat :=
  match alookup s.command_history pawn_key with
  | some buf => buf.get_entries_count
  | none => 0

/-- `replay_commands` (lines 110-118): when a trigger is already
pending and is strictly later than `history_tick` under wrapping
comparison, overwrite it with `history_tick`; when none is pending,
record `history_tick`. -/
def replay_commands {C : Type} (s : CommandReceiver C) (history_tick : Nat)
    (pawn_key : PawnKey) : CommandReceiver C :=
  match alookup s.replay_trigger pawn_key with
  | some tick =>
    if wrapping_diff tick history_tick > 0 then
      { s with replay_trigger := aupdate s.replay_trigger pawn_key history_tick }
    else
      s
  | none =>
    { s with replay_trigger := s.replay_trigger ++ [(pawn_key, history_tick)] }

/-- `remove_history_until` (lines 121-125). -/
def remove_history_until {C : Type} (s : CommandReceiver C)
    (history_tick : Nat) (pawn_key : PawnKey) : CommandReceiver C :=
  match alookup s.command_history pawn_key with
  | some buf =>
    { s with command_history :=
        aupdate s.command_history pawn_key (buf.remove_until history_tick) }
  | none => s

/-- `pawn_init` (lines 128-133): insert (or replace with) a fresh
buffer of capacity `COMMAND_HISTORY_SIZE = 64`. -/
def pawn_init {C : Type} (s : CommandReceiver C) (pawn_key : PawnKey) :
    CommandReceiver C :=
  { s with command_history :=
      ainsert s.command_history pawn_key (SequenceBuffer.with_capacity C 64) }

/-- `pawn_cleanup` (lines 136-138): remove the pawn's history buffer.
Note the source removes only `command_history`; `replay_trigger` is
left untouched. -/
def pawn_cleanup {C : Type} (s : CommandReceiver C) (pawn_key : PawnKey) :
    CommandReceiver C :=
  { s with command_history := aremove s.command_history pawn_key }

end CommandReceiver

/-- The last entry of a trigger list whose pawn has a present history
buffer in `hist`; this pawn alone determines the replay queue left by a
pass, since each present-history trigger clears the queue before
refilling it. -/
def lastHit {C : Type} (hist : List (PawnKey × SequenceBuffer C)) :
    List (PawnKey × Nat) → Option (PawnKey × Nat)
  | [] => none
  | e :: ts =>
    match lastHit hist ts with
    | some r => some r
    | none => if (alookup hist e.1).isSome then some e else none

/-- The wrapping-aware minimum of two ticks, stated from spec §4.D.6 /
§9: keep the earlier tick under wrapping comparison (the tie and the
antipodal case resolve to the first argument). -/
def min_wrapping (a b : Nat) : Nat :=
  if wrapping_diff a b > 0 then b else a

/-- One receiver method call other than `process_command_replay`; used
to state properties of arbitrary call sequences that contain no replay
pass. -/
inductive Op (C : Type) where
  | queue (tick : Nat) (p : PawnKey) (cmd : C)
  | pop
  | pop_replay
  | replay (h : Nat) (p : PawnKey)
  | init (p : PawnKey)
  | cleanup (p : PawnKey)
  | remove_hist (h : Nat) (p : PawnKey)

/-- Run a sequence of receiver method calls, collecting the value each
`pop_command` call returns, in call order. -/
def runOps {C : Type} :
    CommandReceiver C → List (Op C) →
      CommandReceiver C × List (Option (Nat × PawnKey × C))
  | s, [] => (s, [])
  | s, Op.pop :: L =>
    let r := runOps (s.pop_command).2 L
    (r.1, (s.pop_command).1 :: r.2)
  | s, Op.queue t p c :: L => runOps (s.queue_command t p c) L
  | s, Op.pop_replay :: L => runOps (s.pop_command_replay).2 L
  | s, Op.replay h p :: L => runOps (s.replay_commands h p) L
  | s, Op.init p :: L => runOps (s.pawn_init p) L
  | s, Op.cleanup p :: L => runOps (s.pawn_cleanup p) L
  | s, Op.remove_hist h p :: L => runOps (s.remove_history_until h p) L

/-- The triples enqueued by the `queue_command` calls of an operation
sequence, in call order. -/
def enqueues {C : Type} : List (Op C) → List (Nat × PawnKey × C)
  | [] => []
  | Op.queue t p c :: L => (t, p, c) :: enqueues L
  | _ :: L => enqueues L

/-- Concrete receiver whose history for pawn `State 0` holds commands
at ticks 65535 and 0 (both inside the 64-tick window ending at
`sequence_num = 0`), with a pending trigger at tick 65535: the
wrapping-inclusive range from 65535 to 0 contains both ticks. -/
def wrapState : CommandReceiver Nat :=
  let s := (CommandReceiver.new Nat).pawn_init (PawnKey.State 0)
  let s := s.queue_command 65535 (PawnKey.State 0) 7
  let s := s.queue_command 0 (PawnKey.State 0) 8
  s.replay_commands 65535 (PawnKey.State 0)

/-- Concrete receiver with two tracked pawns, one queued command each,
and pending triggers for both. -/
def twoPawnState : CommandReceiver Nat :=
  let s := (CommandReceiver.new Nat).pawn_init (PawnKey.State 1)
  let s := s.pawn_init (PawnKey.State 2)
  let s := s.queue_command 1 (PawnKey.State 1) 11
  let s := s.queue_command 1 (PawnKey.State 2) 22
  let s := s.replay_commands 1 (PawnKey.State 1)
  s.replay_commands 1 (PawnKey.State 2)

/-- Concrete receiver for a tracked pawn with one queued command and a
pending trigger, before cleanup. -/
def preCleanupState : CommandReceiver Nat :=
  let s := (CommandReceiver.new Nat).pawn_init (PawnKey.State 0)
  let s := s.queue_command 1 (PawnKey.State 0) 5
  s.replay_commands 1 (PawnKey.State 0)

/-- `preCleanupState` after `pawn_cleanup`: the trigger is still
pending while the history is gone. -/
def cleanupState : CommandReceiver Nat :=
  preCleanupState.pawn_cleanup (PawnKey.State 0)

/-- A history buffer holding one command at tick 1. -/
def oneCmdBuffer : SequenceBuffer Nat :=
  (SequenceBuffer.with_capacity Nat 64).insert 1 22

/-- Concrete receiver with one tracked pawn whose trigger is pending
and whose replay queue is non-empty. -/
def oneTriggerState : CommandReceiver Nat :=
  ⟨[(3, PawnKey.State 2, 33)], [(PawnKey.State 2, oneCmdBuffer)],
    [(9, PawnKey.State 2, 99)], [(PawnKey.State 2, 1)]⟩

end Naia

namespace Naia

/-! ### Basic lemmas about the embedding -/

theorem wrapping_diff_self (a : Nat) : wrapping_diff a a = 0 := by
  simp only [wrapping_diff]
  split <;> omega

theorem wrapping_diff_antisymm {a b : Nat} (h : wrapping_diff a b > 0) :
    wrapping_diff b a ≤ 0 := by
  simp only [wrapping_diff] at h ⊢
  split at h <;> split <;> omega

theorem alookup_aupdate_self {K V : Type} [DecidableEq K]
    (l : List (K × V)) (k : K) (v : V) (h : (alookup l k).isSome) :
    alookup (aupdate l k v) k = some v := by
  induction l with
  | nil => simp [alookup] at h
  | cons e t ih =>
    by_cases he : e.1 = k
    · simp [alookup, aupdate, he]
    · simp only [alookup, aupdate, he, if_false] at h ⊢
      exact ih h

theorem alookup_aupdate_ne {K V : Type} [DecidableEq K]
    (l : List (K × V)) (k q : K) (v : V) (h : q ≠ k) :
    alookup (aupdate l k v) q = alookup l q := by
  induction l with
  | nil => simp [aupdate]
  | cons e t ih =>
    have hkq : ¬ k = q := fun hq => h hq.symm
    by_cases he : e.1 = k
    · simp [alookup, aupdate, he, hkq]
    · by_cases heq : e.1 = q <;> simp [alookup, aupdate, he, heq, h, ih]

theorem alookup_append_single_self {K V : Type} [DecidableEq K]
    (l : List (K × V)) (k : K) (v : V) (h : alookup l k = none) :
    alookup (l ++ [(k, v)]) k = some v := by
  induction l with
  | nil => simp [alookup]
  | cons e t ih =>
    by_cases he : e.1 = k
    · simp [alookup, he] at h
    · simp only [alookup, he, if_false, List.cons_append] at h ⊢
      exact ih h

theorem alookup_append_single_ne {K V : Type} [DecidableEq K]
    (l : List (K × V)) (k q : K) (v : V) (h : q ≠ k) :
    alookup (l ++ [(k, v)]) q = alookup l q := by
  induction l with
  | nil =>
    have hkq : ¬ k = q := fun hq => h hq.symm
    simp [alookup, hkq]
  | cons e t ih =>
    by_cases he : e.1 = q <;> simp [alookup, he, ih]

theorem alookup_aremove_self {K V : Type} [DecidableEq K]
    (l : List (K × V)) (k : K) : alookup (aremove l k) k = none := by
  induction l with
  | nil => simp [aremove, alookup]
  | cons e t ih =>
    by_cases he : e.1 = k
    · simpa [aremove, he] using ih
    · simpa [aremove, alookup, he] using ih

end Naia

namespace Naia

open CommandReceiver

theorem processStep_of_none {C : Type} (s : CommandReceiver C)
    (e : PawnKey × Nat) (h : alookup s.command_history e.1 = none) :
    processStep s e = s := by
  simp [processStep, h]

theorem processStep_of_some {C : Type} (s : CommandReceiver C)
    (e : PawnKey × Nat) (buf : SequenceBuffer C)
    (h : alookup s.command_history e.1 = some buf) :
    processStep s e =
      { s with
        queued_incoming_commands := [],
        queued_command_replays := replay_entries buf e.2 e.1 } := by
  simp [processStep, h]

theorem processStep_history {C : Type} (s : CommandReceiver C)
    (e : PawnKey × Nat) :
    (processStep s e).command_history = s.command_history := by
  cases h : alookup s.command_history e.1 <;> simp [processStep, h]

theorem processStep_trigger {C : Type} (s : CommandReceiver C)
    (e : PawnKey × Nat) :
    (processStep s e).replay_trigger = s.replay_trigger := by
  cases h : alookup s.command_history e.1 <;> simp [processStep, h]

theorem foldl_processStep_history {C : Type} (ts : List (PawnKey × Nat)) :
    ∀ s : CommandReceiver C,
      (ts.foldl processStep s).command_history = s.command_history := by
  induction ts with
  | nil => intro s; rfl
  | cons e t ih =>
    intro s
    rw [List.foldl_cons, ih, processStep_history]

theorem foldl_processStep_incoming_cases {C : Type} (ts : List (PawnKey × Nat)) :
    ∀ s : CommandReceiver C,
      (ts.foldl processStep s).queued_incoming_commands = [] ∨
      (ts.foldl processStep s).queued_incoming_commands =
        s.queued_incoming_commands := by
  induction ts with
  | nil => intro s; right; rfl
  | cons e t ih =>
    intro s
    rw [List.foldl_cons]
    rcases ih (processStep s e) with h | h
    · left; exact h
    · cases hl : alookup s.command_history e.1 with
      | none => right; rw [h, processStep_of_none s e hl]
      | some buf => left; rw [h, processStep_of_some s e buf hl]

theorem foldl_processStep_replays {C : Type} (ts : List (PawnKey × Nat)) :
    ∀ s : CommandReceiver C,
      (lastHit s.command_history ts = none ∧
        (ts.foldl processStep s).queued_command_replays =
          s.queued_command_replays) ∨
      (∃ p h buf, lastHit s.command_history ts = some (p, h) ∧
        alookup s.command_history p = some buf ∧
        (ts.foldl processStep s).queued_command_replays =
          replay_entries buf h p) := by
  induction ts with
  | nil => intro s; left; exact ⟨rfl, rfl⟩
  | cons e t ih =>
    intro s
    rw [List.foldl_cons]
    have hh : (processStep s e).command_history = s.command_history :=
      processStep_history s e
    rcases ih (processStep s e) with ⟨hnone, hrep⟩ | ⟨p, h, buf, hsome, hbuf, hrep⟩
    · rw [hh] at hnone
      cases hl : alookup s.command_history e.1 with
      | none =>
        left
        refine ⟨?_, ?_⟩
        · simp [lastHit, hnone, hl]
        · rw [hrep, processStep_of_none s e hl]
      | some buf =>
        right
        refine ⟨e.1, e.2, buf, ?_, hl, ?_⟩
        · simp [lastHit, hnone, hl]
        · rw [hrep, processStep_of_some s e buf hl]
    · rw [hh] at hsome hbuf
      right
      exact ⟨p, h, buf, by simp [lastHit, hsome], hbuf, hrep⟩

end Naia

namespace Naia

open CommandReceiver

theorem replay_commands_incoming {C : Type} (s : CommandReceiver C)
    (h : Nat) (p : PawnKey) :
    (s.replay_commands h p).queued_incoming_commands =
      s.queued_incoming_commands := by
  cases ht : alookup s.replay_trigger p <;>
    simp [CommandReceiver.replay_commands, ht] <;> split <;> rfl

theorem replay_commands_replays {C : Type} (s : CommandReceiver C)
    (h : Nat) (p : PawnKey) :
    (s.replay_commands h p).queued_command_replays =
      s.queued_command_replays := by
  cases ht : alookup s.replay_trigger p <;>
    simp [CommandReceiver.replay_commands, ht] <;> split <;> rfl

theorem replay_commands_history {C : Type} (s : CommandReceiver C)
    (h : Nat) (p : PawnKey) :
    (s.replay_commands h p).command_history = s.command_history := by
  cases ht : alookup s.replay_trigger p <;>
    simp [CommandReceiver.replay_commands, ht] <;> split <;> rfl

theorem remove_history_until_incoming {C : Type} (s : CommandReceiver C)
    (h : Nat) (p : PawnKey) :
    (s.remove_history_until h p).queued_incoming_commands =
      s.queued_incoming_commands := by
  cases ht : alookup s.command_history p <;>
    simp [CommandReceiver.remove_history_until, ht]

theorem process_trigger_nil {C : Type} (s : CommandReceiver C)
    (h : s.replay_trigger = []) : s.process_command_replay = (s, []) := by
  cases s with
  | mk a b c d =>
    simp only at h
    subst h
    rfl

theorem process_trigger_cleared {C : Type} (s : CommandReceiver C) :
    s.process_command_replay.1.replay_trigger = [] := rfl

end Naia

namespace Naia

open CommandReceiver

/-- Claim C4: `replay_commands(h, p)` records `h` as the pending
trigger for `p` when none exists; when a trigger `t0` is already
pending, the pending trigger becomes the earlier of `t0` and `h` under
wrapping comparison; calling `replay_commands(h, p)` twice with the
same tick leaves the same state as calling it once. -/
theorem replay_commands_earliest_trigger_wins {C : Type}
    (s : CommandReceiver C) (h : Nat) (p : PawnKey) :
    (alookup s.replay_trigger p = none →
      alookup (s.replay_commands h p).replay_trigger p = some h) ∧
    (∀ t0, alookup s.replay_trigger p = some t0 →
      alookup (s.replay_commands h p).replay_trigger p =
        some (min_wrapping t0 h) ∧
      (min_wrapping t0 h = t0 ∨ min_wrapping t0 h = h) ∧
      wrapping_diff (min_wrapping t0 h) t0 ≤ 0 ∧
      wrapping_diff (min_wrapping t0 h) h ≤ 0) ∧
    (s.replay_commands h p).replay_commands h p = s.replay_commands h p := by
  refine ⟨?_, ?_, ?_⟩
  · intro hn
    simp only [CommandReceiver.replay_commands, hn]
    exact alookup_append_single_self _ _ _ hn
  · intro t0 ht
    refine ⟨?_, ?_⟩
    · by_cases hw : wrapping_diff t0 h > 0
      · simp only [CommandReceiver.replay_commands, ht, if_pos hw,
          min_wrapping, hw, if_true]
        exact alookup_aupdate_self _ _ _ (by simp [ht])
      · simp only [CommandReceiver.replay_commands, ht, if_neg hw,
          min_wrapping]
    · by_cases hw : wrapping_diff t0 h > 0
      · have hm : min_wrapping t0 h = h := by simp [min_wrapping, hw]
        rw [hm]
        exact ⟨Or.inr rfl, wrapping_diff_antisymm hw,
          le_of_eq (wrapping_diff_self h)⟩
      · have hm : min_wrapping t0 h = t0 := by simp [min_wrapping, hw]
        rw [hm]
        exact ⟨Or.inl rfl, le_of_eq (wrapping_diff_self t0),
          le_of_not_lt hw⟩
  · cases ht : alookup s.replay_trigger p with
    | none =>
      have h1 : alookup (s.replay_trigger ++ [(p, h)]) p = some h :=
        alookup_append_single_self _ _ _ ht
      simp only [CommandReceiver.replay_commands, ht]
      simp [CommandReceiver.replay_commands, h1, wrapping_diff_self]
    | some t0 =>
      by_cases hw : wrapping_diff t0 h > 0
      · have hup : alookup (aupdate s.replay_trigger p h) p = some h :=
          alookup_aupdate_self _ _ _ (by simp [ht])
        simp only [CommandReceiver.replay_commands, ht, if_pos hw]
        simp [CommandReceiver.replay_commands, hup, wrapping_diff_self]
      · have h1 : s.replay_commands h p = s := by
          simp [CommandReceiver.replay_commands, ht, hw]
        rw [h1]
        exact h1

/-- Witness for C4 at concrete inputs: with no pending trigger,
tick 5 is recorded; with pending trigger 7, the earlier tick 5 wins;
the double call equals the single call. -/
theorem replay_commands_earliest_trigger_wins_witness :
    (alookup ((CommandReceiver.new Nat).replay_commands 5
        (PawnKey.State 0)).replay_trigger (PawnKey.State 0) = some 5) ∧
    (alookup ((⟨[], [], [], [(PawnKey.State 0, 7)]⟩ :
        CommandReceiver Nat).replay_commands 5
        (PawnKey.State 0)).replay_trigger (PawnKey.State 0) =
      some (min_wrapping 7 5)) ∧
    (((CommandReceiver.new Nat).replay_commands 5
        (PawnKey.State 0)).replay_commands 5 (PawnKey.State 0) =
      (CommandReceiver.new Nat).replay_commands 5 (PawnKey.State 0)) := by
  refine ⟨?_, ?_, ?_⟩
  · exact (replay_commands_earliest_trigger_wins
      (CommandReceiver.new Nat) 5 (PawnKey.State 0)).1 rfl
  · exact ((replay_commands_earliest_trigger_wins
      (⟨[], [], [], [(PawnKey.State 0, 7)]⟩ : CommandReceiver Nat) 5
      (PawnKey.State 0)).2.1 7 rfl).1
  · exact (replay_commands_earliest_trigger_wins
      (CommandReceiver.new Nat) 5 (PawnKey.State 0)).2.2

/-- Claim C10: `replay_commands(h, p)` modifies at most the
`replay_trigger` entry for `p`: the incoming queue, the replays queue,
the whole command history, and every other pawn's trigger entry are
unchanged. -/
theorem replay_commands_frame {C : Type} (s : CommandReceiver C)
    (h : Nat) (p : PawnKey) :
    (s.replay_commands h p).queued_incoming_commands =
      s.queued_incoming_commands ∧
    (s.replay_commands h p).queued_command_replays =
      s.queued_command_replays ∧
    (s.replay_commands h p).command_history = s.command_history ∧
    ∀ q, q ≠ p →
      alookup (s.replay_commands h p).replay_trigger q =
        alookup s.replay_trigger q := by
  refine ⟨replay_commands_incoming s h p, replay_commands_replays s h p,
    replay_commands_history s h p, ?_⟩
  intro q hq
  cases ht : alookup s.replay_trigger p with
  | none =>
    simp only [CommandReceiver.replay_commands, ht]
    exact alookup_append_single_ne _ _ _ _ hq
  | some t0 =>
    by_cases hw : wrapping_diff t0 h > 0
    · simp only [CommandReceiver.replay_commands, ht, if_pos hw]
      exact alookup_aupdate_ne _ _ _ _ hq
    · simp [CommandReceiver.replay_commands, ht, hw]

/-- Witness for C10 at a concrete input: triggering pawn `State 0`
leaves pawn `Entity 0`'s (absent) trigger entry unchanged. -/
theorem replay_commands_frame_witness :
    alookup ((CommandReceiver.new Nat).replay_commands 5
        (PawnKey.State 0)).replay_trigger (PawnKey.Entity 0) =
      alookup (CommandReceiver.new Nat).replay_trigger (PawnKey.Entity 0) :=
  (replay_commands_frame (CommandReceiver.new Nat) 5
    (PawnKey.State 0)).2.2.2 (PawnKey.Entity 0) (by decide)

/-- Claim C7: with no pending trigger, `process_command_replay` leaves
the whole receiver state unchanged and issues no reset; hence of two
successive passes with no intervening `replay_commands`, the second is
a no-op. -/
theorem process_command_replay_empty_noop {C : Type}
    (s : CommandReceiver C) :
    (s.replay_trigger = [] → s.process_command_replay = (s, [])) ∧
    s.process_command_replay.1.process_command_replay =
      (s.process_command_replay.1, []) := by
  refine ⟨process_trigger_nil s, ?_⟩
  exact process_trigger_nil s.process_command_replay.1
    (process_trigger_cleared s)

/-- Witness for C7 at a concrete input: a pass on the fresh receiver
changes nothing and issues no reset. -/
theorem process_command_replay_empty_noop_witness :
    (CommandReceiver.new Nat).process_command_replay =
      (CommandReceiver.new Nat, []) :=
  (process_command_replay_empty_noop (CommandReceiver.new Nat)).1 rfl

end Naia

namespace Naia

open CommandReceiver

theorem resetOf_injective : Function.Injective resetOf := by
  intro a b hab
  cases a <;> cases b <;> simp [resetOf] at hab <;> simp [hab]

/-- Claim C6: `queue_command(tick, p, cmd)` always appends the triple
at the back of the incoming queue, and inserts `cmd` into `history[p]`
exactly when `p` is tracked; for an untracked `p` the command is still
queued (so `pop_command` will deliver it) while
`command_history_count(p)` remains 0. -/
theorem queue_command_spec {C : Type} (s : CommandReceiver C)
    (tick : Nat) (p : PawnKey) (cmd : C) :
    (s.queue_command tick p cmd).queued_incoming_commands =
      s.queued_incoming_commands ++ [(tick, p, cmd)] ∧
    (∀ buf, alookup s.command_history p = some buf →
      (s.queue_command tick p cmd).command_history =
        aupdate s.command_history p (buf.insert tick cmd)) ∧
    (alookup s.command_history p = none →
      (s.queue_command tick p cmd).command_history = s.command_history ∧
      (s.queue_command tick p cmd).command_history_count p = 0 ∧
      (tick, p, cmd) ∈
        (s.queue_command tick p cmd).queued_incoming_commands) := by
  refine ⟨rfl, ?_, ?_⟩
  · intro buf hbuf
    simp [CommandReceiver.queue_command, hbuf]
  · intro hn
    have hh : (s.queue_command tick p cmd).command_history =
        s.command_history := by
      simp [CommandReceiver.queue_command, hn]
    refine ⟨hh, ?_, ?_⟩
    · simp [CommandReceiver.command_history_count, hh, hn]
    · show (tick, p, cmd) ∈ s.queued_incoming_commands ++ [(tick, p, cmd)]
      simp

/-- Witness for C6 at a concrete input: queueing for the untracked pawn
`State 0` on the fresh receiver leaves the history untouched and a zero
history count, while the triple reaches the incoming queue. -/
theorem queue_command_spec_witness :
    ((CommandReceiver.new Nat).queue_command 5 (PawnKey.State 0)
        42).queued_incoming_commands =
      (CommandReceiver.new Nat).queued_incoming_commands ++
        [(5, PawnKey.State 0, 42)] ∧
    ((CommandReceiver.new Nat).queue_command 5 (PawnKey.State 0)
        42).command_history_count (PawnKey.State 0) = 0 ∧
    (5, PawnKey.State 0, 42) ∈
      ((CommandReceiver.new Nat).queue_command 5 (PawnKey.State 0)
        42).queued_incoming_commands := by
  have h := queue_command_spec (CommandReceiver.new Nat) 5
    (PawnKey.State 0) 42
  exact ⟨h.1, (h.2.2 rfl).2.1, (h.2.2 rfl).2.2⟩

/-- Claim C8: during `process_command_replay`, the state-manager reset
(`pawn_reset` for a `State` key, `pawn_reset_entity` for an `Entity`
key) is issued once per pending trigger entry — hence exactly once per
triggered pawn when the trigger keys are unique — including pawns with
no history buffer; for such untracked pawns the pass changes nothing
(no replays are enqueued and no error is raised). -/
theorem process_command_replay_resets {C : Type} (s : CommandReceiver C) :
    s.process_command_replay.2 =
      s.replay_trigger.map (fun e => resetOf e.1) ∧
    (∀ p h, (p, h) ∈ s.replay_trigger →
      (s.replay_trigger.map Prod.fst).Nodup →
      s.process_command_replay.2.count (resetOf p) = 1) ∧
    (∀ p h, alookup s.command_history p = none →
      processStep s (p, h) = s) := by
  refine ⟨rfl, ?_, ?_⟩
  · intro p h hmem hnodup
    have h1 : s.process_command_replay.2 =
        (s.replay_trigger.map Prod.fst).map resetOf := by
      simp [CommandReceiver.process_command_replay, List.map_map]
    rw [h1, List.count_map_of_injective _ resetOf resetOf_injective]
    exact List.count_eq_one_of_mem hnodup
      (List.mem_map_of_mem Prod.fst hmem)
  · intro p h hn
    exact processStep_of_none s (p, h) hn

/-- Witness for C8 at a concrete input: with a pending trigger for the
untracked pawn `State 0`, the pass issues `pawn_reset 0` exactly once
and the per-pawn step leaves the state unchanged. -/
theorem process_command_replay_resets_witness :
    ((CommandReceiver.new Nat).replay_commands 5
        (PawnKey.State 0)).process_command_replay.2.count
      (resetOf (PawnKey.State 0)) = 1 ∧
    processStep ((CommandReceiver.new Nat).replay_commands 5
        (PawnKey.State 0)) (PawnKey.State 0, 5) =
      (CommandReceiver.new Nat).replay_commands 5 (PawnKey.State 0) := by
  have h := process_command_replay_resets
    ((CommandReceiver.new Nat).replay_commands 5 (PawnKey.State 0))
  exact ⟨h.2.1 (PawnKey.State 0) 5 (by decide) (by decide),
    h.2.2 (PawnKey.State 0) 5 rfl⟩

theorem foldl_processStep_incoming_nil {C : Type}
    (ts : List (PawnKey × Nat)) :
    ∀ s : CommandReceiver C,
      (∃ e ∈ ts, (alookup s.command_history e.1).isSome) →
      (ts.foldl processStep s).queued_incoming_commands = [] := by
  induction ts with
  | nil =>
    intro s hex
    obtain ⟨e, he, _⟩ := hex
    exact absurd he (List.not_mem_nil e)
  | cons e t ih =>
    intro s hex
    obtain ⟨e', he', hs⟩ := hex
    rw [List.foldl_cons]
    cases hl : alookup s.command_history e.1 with
    | some buf =>
      have h0 : (processStep s e).queued_incoming_commands = [] := by
        rw [processStep_of_some s e buf hl]
      rcases foldl_processStep_incoming_cases t (processStep s e) with h | h
      · exact h
      · rw [h, h0]
    | none =>
      rw [processStep_of_none s e hl]
      rcases List.mem_cons.mp he' with rfl | hmem
      · rw [hl] at hs
        simp at hs
      · exact ih s ⟨e', hmem, hs⟩

/-- Claim C5: for every pawn whose trigger fires with a present history
buffer, both the incoming queue and the replays queue are cleared
before that pawn's historical commands are appended (the per-pawn step
leaves incoming empty and the replay queue equal to exactly that
pawn's entries); consequently the incoming queue is empty after any
pass in which at least one tracked pawn's trigger fired. -/
theorem process_command_replay_clears_queues {C : Type}
    (s : CommandReceiver C) :
    (∀ p h buf, alookup s.command_history p = some buf →
      (processStep s (p, h)).queued_incoming_commands = [] ∧
      (processStep s (p, h)).queued_command_replays =
        replay_entries buf h p) ∧
    ((∃ e ∈ s.replay_trigger, (alookup s.command_history e.1).isSome) →
      s.process_command_replay.1.queued_incoming_commands = []) := by
  refine ⟨?_, ?_⟩
  · intro p h buf hbuf
    rw [processStep_of_some s (p, h) buf hbuf]
    exact ⟨rfl, rfl⟩
  · intro hex
    have h1 : s.process_command_replay.1.queued_incoming_commands =
        (s.replay_trigger.foldl processStep s).queued_incoming_commands :=
      rfl
    rw [h1]
    exact foldl_processStep_incoming_nil s.replay_trigger s hex

/-- Witness for C5 at a concrete input: in `oneTriggerState` (one
tracked pawn with a pending trigger and non-empty queues), the per-pawn
step clears both queues and the full pass leaves incoming empty. -/
theorem process_command_replay_clears_queues_witness :
    ((processStep oneTriggerState
          (PawnKey.State 2, 1)).queued_incoming_commands = [] ∧
      (processStep oneTriggerState
          (PawnKey.State 2, 1)).queued_command_replays =
        replay_entries oneCmdBuffer 1 (PawnKey.State 2)) ∧
    oneTriggerState.process_command_replay.1.queued_incoming_commands =
      [] := by
  have h := process_command_replay_clears_queues oneTriggerState
  exact ⟨h.1 (PawnKey.State 2) 1 oneCmdBuffer rfl,
    h.2 ⟨(PawnKey.State 2, 1), by decide, rfl⟩⟩

end Naia

namespace Naia

open CommandReceiver

theorem replay_entries_pawn {C : Type} (buf : SequenceBuffer C)
    (h : Nat) (p : PawnKey) :
    ∀ e ∈ replay_entries buf h p, e.2.1 = p := by
  intro e he
  simp only [replay_entries, List.mem_filterMap, Option.map_eq_some'] at he
  obtain ⟨t, _, c, _, rfl⟩ := he
  rfl

/-- Counterexample to claim C2 as stated: in `twoPawnState` both pawns
`State 1` and `State 2` have a pending trigger and a present history
buffer, yet after the pass the replays queue holds only the command of
`State 2` (the pawn iterated last); `State 1`'s replayed command is
lost, because each triggered pawn's processing clears the queue filled
by the previous one. -/
theorem process_command_replay_multi_pawn_counterexample :
    twoPawnState.replay_trigger =
      [(PawnKey.State 1, 1), (PawnKey.State 2, 1)] ∧
    (alookup twoPawnState.command_history (PawnKey.State 1)).isSome ∧
    (alookup twoPawnState.command_history (PawnKey.State 2)).isSome ∧
    twoPawnState.process_command_replay.1.queued_command_replays =
      [(1, PawnKey.State 2, 22)] ∧
    (1, PawnKey.State 1, 11) ∉
      twoPawnState.process_command_replay.1.queued_command_replays := by
  refine ⟨rfl, rfl, rfl, rfl, by decide⟩

/-- Claim C2 (amended): after the pass, the replays queue holds exactly
the replayed commands (ascending tick order) of the LAST pawn, in
pawn-map iteration order, that had both a pending trigger and a present
history buffer; the replayed commands of earlier such pawns are cleared
by the later pawn's processing and lost.  When no triggered pawn has a
history buffer, the replays queue is left unchanged. -/
theorem process_command_replay_last_pawn_wins {C : Type}
    (s : CommandReceiver C) :
    (lastHit s.command_history s.replay_trigger = none →
      s.process_command_replay.1.queued_command_replays =
        s.queued_command_replays) ∧
    (∀ p h buf,
      lastHit s.command_history s.replay_trigger = some (p, h) →
      alookup s.command_history p = some buf →
      s.process_command_replay.1.queued_command_replays =
        replay_entries buf h p) := by
  have hfold := foldl_processStep_replays s.replay_trigger s
  have h1 : s.process_command_replay.1.queued_command_replays =
      (s.replay_trigger.foldl processStep s).queued_command_replays := rfl
  refine ⟨?_, ?_⟩
  · intro hnone
    rcases hfold with ⟨_, hrep⟩ | ⟨p, h, buf, hsome, _, _⟩
    · rw [h1, hrep]
    · rw [hnone] at hsome
      exact absurd hsome (by simp)
  · intro p h buf hsome hbuf
    rcases hfold with ⟨hnone, _⟩ | ⟨p', h', buf', hsome', hbuf', hrep⟩
    · rw [hsome] at hnone
      exact absurd hnone (by simp)
    · rw [hsome] at hsome'
      have hpe : (p, h) = (p', h') := Option.some.inj hsome'
      injection hpe with hp1 hp2
      subst hp1
      subst hp2
      rw [hbuf] at hbuf'
      rw [h1, hrep, Option.some.inj hbuf']

/-- Witness for the amended C2 at a concrete input: in
`oneTriggerState` the only (hence last) triggered tracked pawn is
`State 2`, and the pass leaves exactly its entries on the replays
queue. -/
theorem process_command_replay_last_pawn_wins_witness :
    oneTriggerState.process_command_replay.1.queued_command_replays =
      replay_entries oneCmdBuffer 1 (PawnKey.State 2) :=
  (process_command_replay_last_pawn_wins oneTriggerState).2
    (PawnKey.State 2) 1 oneCmdBuffer rfl rfl

/-- Counterexample to claim C3 as stated: in `preCleanupState` pawn
`State 0` is tracked with a pending trigger; after `pawn_cleanup`
(state `cleanupState`, with no further `replay_commands` call) the
trigger is still pending and a subsequent `process_command_replay`
still performs the state reset for the pawn. -/
theorem pawn_cleanup_leaves_trigger_counterexample :
    cleanupState.replay_trigger = [(PawnKey.State 0, 1)] ∧
    cleanupState.process_command_replay.2 =
      [ResetCall.pawn_reset 0] := ⟨rfl, rfl⟩

/-- Claim C3 (amended): `pawn_cleanup(p)` removes the history buffer of
`p` but leaves `replay_trigger` (and both queues) untouched, so a
pending trigger for `p` survives; a subsequent `process_command_replay`
still performs the state reset for `p`, but — the history being gone —
enqueues no replay commands for `p` (any `p`-commands it leaves on the
replays queue were already there). -/
theorem pawn_cleanup_spec {C : Type} (s : CommandReceiver C)
    (p : PawnKey) :
    alookup (s.pawn_cleanup p).command_history p = none ∧
    (s.pawn_cleanup p).replay_trigger = s.replay_trigger ∧
    (s.pawn_cleanup p).queued_incoming_commands =
      s.queued_incoming_commands ∧
    (s.pawn_cleanup p).queued_command_replays =
      s.queued_command_replays ∧
    (∀ h, (p, h) ∈ (s.pawn_cleanup p).replay_trigger →
      resetOf p ∈ (s.pawn_cleanup p).process_command_replay.2) ∧
    (∀ e ∈ (s.pawn_cleanup p).process_command_replay.1.queued_command_replays,
      e.2.1 = p → e ∈ s.queued_command_replays) := by
  refine ⟨alookup_aremove_self _ _, rfl, rfl, rfl, ?_, ?_⟩
  · intro h hmem
    have h1 : (s.pawn_cleanup p).process_command_replay.2 =
        (s.pawn_cleanup p).replay_trigger.map (fun e => resetOf e.1) := rfl
    rw [h1]
    exact List.mem_map_of_mem (fun e => resetOf e.1) hmem
  · intro e he hp
    have h1 : (s.pawn_cleanup p).process_command_replay.1.queued_command_replays =
        ((s.pawn_cleanup p).replay_trigger.foldl processStep
          (s.pawn_cleanup p)).queued_command_replays := rfl
    rcases foldl_processStep_replays (s.pawn_cleanup p).replay_trigger
        (s.pawn_cleanup p) with ⟨_, hrep⟩ | ⟨q, hq, buf, _, hbuf, hrep⟩
    · rw [h1, hrep] at he
      exact he
    · rw [h1, hrep] at he
      have hqp : e.2.1 = q := replay_entries_pawn buf hq q e he
      have hpq : p = q := hp.symm.trans hqp
      rw [← hpq] at hbuf
      have hn : alookup (s.pawn_cleanup p).command_history p = none :=
        alookup_aremove_self s.command_history p
      rw [hn] at hbuf
      exact absurd hbuf (by simp)

/-- Witness for the amended C3 at a concrete input: after cleaning up
pawn `State 0` in `preCleanupState`, its history lookup is `none`, the
trigger survives, and the next pass still issues its reset. -/
theorem pawn_cleanup_spec_witness :
    alookup cleanupState.command_history (PawnKey.State 0) = none ∧
    cleanupState.replay_trigger = preCleanupState.replay_trigger ∧
    resetOf (PawnKey.State 0) ∈ cleanupState.process_command_replay.2 := by
  have h := pawn_cleanup_spec preCleanupState (PawnKey.State 0)
  exact ⟨h.1, h.2.1, h.2.2.2.2.1 1 (by decide)⟩

end Naia

namespace Naia

open CommandReceiver

/-- Claim C1 (code bug witnessed): in `wrapState` pawn `State 0` has a
pending trigger at tick `h = 65535`, and its history buffer holds
commands at ticks 65535 and 0 with `sequence_num = 0`; under wrapping
comparison 65535 is earlier than 0 (so both stored ticks lie in the
wrapping-inclusive range from `h` to `sequence_num`), yet the pass
enqueues nothing, because the source iterates the raw numeric `u16`
range `65535..=0`, which is empty. -/
theorem process_command_replay_wrap_boundary_bug :
    wrapState.replay_trigger = [(PawnKey.State 0, 65535)] ∧
    (alookup wrapState.command_history (PawnKey.State 0)).map
        (fun b => (b.get 65535, b.get 0, b.sequence_num)) =
      some (some 7, some 8, 0) ∧
    wrapping_diff 65535 0 < 0 ∧
    wrapping_diff 0 65535 > 0 ∧
    wrapState.process_command_replay.1.queued_command_replays = [] :=
  ⟨rfl, rfl, by decide, by decide, rfl⟩

theorem runOps_pop {C : Type} (s : CommandReceiver C) (L : List (Op C)) :
    runOps s (Op.pop :: L) =
      ((runOps (s.pop_command).2 L).1,
        (s.pop_command).1 :: (runOps (s.pop_command).2 L).2) := rfl

/-- Claim C9: over any call sequence containing no
`process_command_replay` (every other receiver method may occur), the
values returned by the `pop_command` calls, followed by the incoming
queue left at the end, are exactly the initial incoming queue followed
by the `queue_command` triples in call order — strict FIFO delivery —
and `pop_command` returns `none` exactly when the incoming queue is
empty. -/
theorem pop_command_fifo {C : Type} (L : List (Op C)) :
    ∀ s : CommandReceiver C,
      (runOps s L).2.reduceOption ++
          (runOps s L).1.queued_incoming_commands =
        s.queued_incoming_commands ++ enqueues L ∧
      ((s.pop_command).1 = none ↔ s.queued_incoming_commands = []) := by
  induction L with
  | nil =>
    intro s
    refine ⟨by simp [runOps, enqueues], ?_⟩
    simp [CommandReceiver.pop_command]
  | cons op L ih =>
    intro s
    refine ⟨?_, by simp [CommandReceiver.pop_command]⟩
    cases op with
    | pop =>
      rw [runOps_pop]
      have h2 := (ih (s.pop_command).2).1
      have htail : (s.pop_command).2.queued_incoming_commands =
          s.queued_incoming_commands.tail := rfl
      rw [htail] at h2
      have henq : enqueues (Op.pop :: L) = enqueues (C := C) L := rfl
      cases hq : s.queued_incoming_commands with
      | nil =>
        have hpop : (s.pop_command).1 = none := by
          simp [CommandReceiver.pop_command, hq]
        rw [hq, List.tail_nil] at h2
        rw [hpop]
        simpa [List.reduceOption_cons_of_none] using h2
      | cons a t =>
        have hpop : (s.pop_command).1 = some a := by
          simp [CommandReceiver.pop_command, hq]
        rw [hq, List.tail_cons] at h2
        rw [hpop]
        simp [List.reduceOption_cons_of_some, h2, henq]
    | queue tick p cmd =>
      have h2 := (ih (s.queue_command tick p cmd)).1
      show (runOps (s.queue_command tick p cmd) L).2.reduceOption ++
          (runOps (s.queue_command tick p cmd)
            L).1.queued_incoming_commands =
        s.queued_incoming_commands ++ ((tick, p, cmd) :: enqueues L)
      rw [h2]
      show s.queued_incoming_commands ++ [(tick, p, cmd)] ++ enqueues L =
        s.queued_incoming_commands ++ ((tick, p, cmd) :: enqueues L)
      simp
    | pop_replay =>
      exact (ih (s.pop_command_replay).2).1
    | replay h p =>
      have h2 := (ih (s.replay_commands h p)).1
      rw [replay_commands_incoming] at h2
      exact h2
    | init p =>
      exact (ih (s.pawn_init p)).1
    | cleanup p =>
      exact (ih (s.pawn_cleanup p)).1
    | remove_hist h p =>
      have h2 := (ih (s.remove_history_until h p)).1
      rw [remove_history_until_incoming] at h2
      exact h2

end Naia
